import Mathlib

/-!
Verification of the StudyBuddy repository's specified behavior.

Strings of the TypeScript code are modeled as `List Char`.  The tolerant
JSON-extraction routine `cleanAndParseJSON` (src/App.tsx, service variant),
the inline cleanup of `generateMindMapData` (src/services/geminiService.ts),
and the profile / chat state handling of `App.tsx` are embedded as
executable Lean definitions, and the spec's testable properties are settled
against them.

`JSON.parse` is a JavaScript builtin; it is modeled here by an executable
recursive-descent parser `parseJson` following the JSON grammar accepted by
`JSON.parse` (ECMA-404 plus JavaScript's surrogate handling).  Numbers are
represented exactly as a decimal mantissa/exponent pair rather than as IEEE
doubles; no claim below compares distinct tokens denoting the same double.
-/

/-- The JSON value model.  Object members keep their textual order, matching
the order `JSON.parse` materializes properties. -/
inductive Json where
  | null : Json
  | bool (b : Bool) : Json
  | num (mantissa : Int) (exp10 : Int) : Json
  | str (s : List Char) : Json
  | arr (elems : List Json) : Json
  | obj (members : List (List Char × Json)) : Json

/-- JSON whitespace accepted between tokens by `JSON.parse`. -/
def isJsonWs (c : Char) : Bool :=
  c = ' ' || c = '\t' || c = '\n' || c = '\r'

def skipWs (s : List Char) : List Char := s.dropWhile isJsonWs

def hexVal? (c : Char) : Option Nat :=
  if '0' ≤ c ∧ c ≤ '9' then some (c.toNat - '0'.toNat)
  else if 'a' ≤ c ∧ c ≤ 'f' then some (c.toNat - 'a'.toNat + 10)
  else if 'A' ≤ c ∧ c ≤ 'F' then some (c.toNat - 'A'.toNat + 10)
  else none

/-- Single-character string escapes of JSON. -/
def escChar? (e : Char) : Option Char :=
  if e = '"' then some '"'
  else if e = '\\' then some '\\'
  else if e = '/' then some '/'
  else if e = 'b' then some (Char.ofNat 8)
  else if e = 'f' then some (Char.ofNat 12)
  else if e = 'n' then some '\n'
  else if e = 'r' then some '\r'
  else if e = 't' then some '\t'
  else none

/-- Body of a JSON string, positioned after the opening quote.  Returns the
decoded characters and the remainder after the closing quote.  `\u` escapes
forming a surrogate pair are combined; a lone surrogate (representable in a
JavaScript string but not as a Unicode scalar) is mapped to U+FFFD. -/
def parseStringBody : Nat → List Char → Option (List Char × List Char)
  | 0, _ => none
  | _+1, [] => none
  | fuel+1, c :: rest =>
    if c = '"' then some ([], rest)
    else if c = '\\' then
      match rest with
      | [] => none
      | e :: rest2 =>
        if e = 'u' then
          match rest2 with
          | h1 :: h2 :: h3 :: h4 :: rest3 =>
            match hexVal? h1, hexVal? h2, hexVal? h3, hexVal? h4 with
            | some a, some b, some c2, some d =>
              let n := ((a * 16 + b) * 16 + c2) * 16 + d
              if 0xD800 ≤ n ∧ n ≤ 0xDBFF then
                match rest3 with
                | '\\' :: 'u' :: g1 :: g2 :: g3 :: g4 :: rest4 =>
                  (match hexVal? g1, hexVal? g2, hexVal? g3, hexVal? g4 with
                   | some a2, some b2, some c3, some d2 =>
                     let m := ((a2 * 16 + b2) * 16 + c3) * 16 + d2
                     if 0xDC00 ≤ m ∧ m ≤ 0xDFFF then
                       (parseStringBody fuel rest4).map
                         (fun p => (Char.ofNat (0x10000 + (n - 0xD800) * 0x400 + (m - 0xDC00)) :: p.1, p.2))
                     else
                       (parseStringBody fuel rest3).map (fun p => ('�' :: p.1, p.2))
                   | _, _, _, _ =>
                     (parseStringBody fuel rest3).map (fun p => ('�' :: p.1, p.2)))
                | _ =>
                  (parseStringBody fuel rest3).map (fun p => ('�' :: p.1, p.2))
              else if 0xDC00 ≤ n ∧ n ≤ 0xDFFF then
                (parseStringBody fuel rest3).map (fun p => ('�' :: p.1, p.2))
              else
                (parseStringBody fuel rest3).map (fun p => (Char.ofNat n :: p.1, p.2))
            | _, _, _, _ => none
          | _ => none
        else
          match escChar? e with
          | some ec => (parseStringBody fuel rest2).map (fun p => (ec :: p.1, p.2))
          | none => none
    else if c.toNat < 0x20 then none
    else (parseStringBody fuel rest).map (fun p => (c :: p.1, p.2))

def digitsToNat (ds : List Char) : Nat :=
  ds.foldl (fun a c => a * 10 + (c.toNat - '0'.toNat)) 0

/-- Assemble a number value: sign, integer digits, fraction digits, exponent
sign and digits, normalized to mantissa * 10 ^ exponent. -/
def mkJsonNum (neg : Bool) (ip fp : List Char) (eneg : Bool) (ed : List Char) : Json :=
  Json.num ((if neg then -1 else 1) * (digitsToNat (ip ++ fp) : Int))
    ((if eneg then -(digitsToNat ed : Int) else (digitsToNat ed : Int)) - (fp.length : Int))

def parseExpTail (neg : Bool) (ip fp : List Char) (s : List Char) : Option (Json × List Char) :=
  let signAndRest := match s with
    | '+' :: r => (false, r)
    | '-' :: r => (true, r)
    | _ => (false, s)
  let ed := signAndRest.2.takeWhile Char.isDigit
  if ed = [] then none
  else some (mkJsonNum neg ip fp signAndRest.1 ed, signAndRest.2.dropWhile Char.isDigit)

def mkNumAfterFrac (neg : Bool) (ip fp : List Char) (s : List Char) : Option (Json × List Char) :=
  match s with
  | 'e' :: r => parseExpTail neg ip fp r
  | 'E' :: r => parseExpTail neg ip fp r
  | _ => some (mkJsonNum neg ip fp false [], s)

/-- A JSON number token: optional minus, integer part with no leading zero,
optional fraction, optional exponent. -/
def parseNumber (s : List Char) : Option (Json × List Char) :=
  let signAndRest := match s with
    | '-' :: r => (true, r)
    | _ => (false, s)
  match signAndRest.2 with
  | [] => none
  | c :: _ =>
    if c.isDigit then
      let ip := signAndRest.2.takeWhile Char.isDigit
      let s2 := signAndRest.2.dropWhile Char.isDigit
      if 1 < ip.length ∧ ip.head? = some '0' then none
      else
        match s2 with
        | '.' :: r =>
          let fp := r.takeWhile Char.isDigit
          if fp = [] then none
          else mkNumAfterFrac signAndRest.1 ip fp (r.dropWhile Char.isDigit)
        | _ => mkNumAfterFrac signAndRest.1 ip [] s2
    else none

/-- Object members, positioned (whitespace already skipped) at the opening
quote of the first key; `pv` parses one nested value.  Stops before the
closing brace, which the caller consumes. -/
def parseMembersF (pv : List Char → Option (Json × List Char)) :
    Nat → List Char → Option (List (List Char × Json) × List Char)
  | 0, _ => none
  | fuel+1, s =>
    match s with
    | '"' :: rest =>
      (match parseStringBody (rest.length + 1) rest with
       | some (key, r1) =>
         (match skipWs r1 with
          | ':' :: r2 =>
            (match pv (skipWs r2) with
             | some (v, r3) =>
               (match skipWs r3 with
                | ',' :: r4 =>
                  (match parseMembersF pv fuel (skipWs r4) with
                   | some (ms, r5) => some ((key, v) :: ms, r5)
                   | none => none)
                | r4 => some ([(key, v)], r4))
             | none => none)
          | _ => none)
       | none => none)
    | _ => none

/-- Array elements, positioned (whitespace already skipped) at the first
element; stops before the closing bracket. -/
def parseElemsF (pv : List Char → Option (Json × List Char)) :
    Nat → List Char → Option (List Json × List Char)
  | 0, _ => none
  | fuel+1, s =>
    match pv s with
    | some (v, r1) =>
      (match skipWs r1 with
       | ',' :: r2 =>
         (match parseElemsF pv fuel (skipWs r2) with
          | some (vs, r3) => some (v :: vs, r3)
          | none => none)
       | r2 => some ([v], r2))
    | none => none

/-- One JSON value, positioned at its first character (whitespace already
skipped).  Fuel bounds the nesting depth; it is defined via `Nat.rec` so
that concrete runs reduce definitionally. -/
def parseValue : Nat → List Char → Option (Json × List Char) :=
  Nat.rec (motive := fun _ => List Char → Option (Json × List Char))
    (fun _ => none)
    (fun _ pv s =>
      match s with
      | '{' :: rest =>
        (match skipWs rest with
         | '}' :: r1 => some (Json.obj [], r1)
         | r0 =>
           match parseMembersF pv (r0.length + 1) r0 with
           | some (ms, r1) =>
             (match skipWs r1 with
              | '}' :: r2 => some (Json.obj ms, r2)
              | _ => none)
           | none => none)
      | '[' :: rest =>
        (match skipWs rest with
         | ']' :: r1 => some (Json.arr [], r1)
         | r0 =>
           match parseElemsF pv (r0.length + 1) r0 with
           | some (vs, r1) =>
             (match skipWs r1 with
              | ']' :: r2 => some (Json.arr vs, r2)
              | _ => none)
           | none => none)
      | '"' :: rest =>
        (match parseStringBody (rest.length + 1) rest with
         | some (cs, r1) => some (Json.str cs, r1)
         | none => none)
      | 't' :: 'r' :: 'u' :: 'e' :: rest => some (Json.bool true, rest)
      | 'f' :: 'a' :: 'l' :: 's' :: 'e' :: rest => some (Json.bool false, rest)
      | 'n' :: 'u' :: 'l' :: 'l' :: rest => some (Json.null, rest)
      | _ => parseNumber s)

/-- Model of `JSON.parse`: parse one value, allow surrounding whitespace,
require the whole input to be consumed. -/
def parseJson (s : List Char) : Option Json :=
  match parseValue (s.length + 1) (skipWs s) with
  | some (v, rest) => if skipWs rest = [] then some v else none
  | none => none

/-- Remove every left-to-right non-overlapping occurrence of `pat`, the
behavior of JavaScript `String.prototype.replace` with a global literal
pattern and empty replacement.  Fuel is the input length; each step consumes
at least one character. -/
def removeAllFuel (pat : List Char) : Nat → List Char → List Char
  | 0, s => s
  | _+1, [] => []
  | fuel+1, c :: rest =>
    if pat ≠ [] ∧ pat.isPrefixOf (c :: rest) then
      removeAllFuel pat fuel (List.drop (pat.length - 1) rest)
    else c :: removeAllFuel pat fuel rest

def removeAll (pat s : List Char) : List Char := removeAllFuel pat s.length s

def fenceJson : List Char := "```json".toList

def fenceBare : List Char := "```".toList

/-- Fence stripping of the source: remove every occurrence of the
```json marker, then every occurrence of the bare ``` marker, each with an
empty replacement. -/
def stripFences (s : List Char) : List Char := removeAll fenceBare (removeAll fenceJson s)

/-- JavaScript `String.prototype.indexOf` for a single character, with `none`
for the -1 result. -/
def idxOf? (c : Char) : List Char → Option Nat
  | [] => none
  | x :: xs => if x = c then some 0 else (idxOf? c xs).map (· + 1)

/-- JavaScript `String.prototype.lastIndexOf` for a single character. -/
def lastIdxOf (c : Char) (l : List Char) : Option Nat :=
  (idxOf? c l.reverse).map (fun i => l.length - 1 - i)

/-- JavaScript `String.prototype.substring`: swaps its endpoints when given
in descending order and clamps to the string. -/
def jsSubstring (l : List Char) (a b : Nat) : List Char :=
  (l.drop (min a b)).take (max a b - min a b)

/-- Failure modes of `cleanAndParseJSON`, one per `throw` site; the parse
error carries the offending slice, which the source logs for diagnostics. -/
inductive JsonError where
  | emptyInput : JsonError
  | noStructure : JsonError
  | parseError (slice : List Char) : JsonError
deriving DecidableEq

/-- src/App.tsx lines 691-714 (service variant): reject empty input, strip
fence markers, slice from the first `{` to the last `}` inclusive, parse. -/
def cleanAndParseJSON (text : List Char) : Except JsonError Json :=
  if text = [] then .error .emptyInput
  else
    match idxOf? '{' (stripFences text), lastIdxOf '}' (stripFences text) with
    | some firstBrace, some lastBrace =>
      (match parseJson (jsSubstring (stripFences text) firstBrace (lastBrace + 1)) with
       | some v => .ok v
       | none => .error (.parseError (jsSubstring (stripFences text) firstBrace (lastBrace + 1))))
    | _, _ => .error .noStructure

/-- Whitespace removed by JavaScript `String.prototype.trim`. -/
def isJsTrimWs (c : Char) : Bool :=
  c = ' ' || c = '\t' || c = '\n' || c = '\r' || c = '\x0b' || c = '\x0c' ||
  c.toNat = 0xa0 || c.toNat = 0xfeff || c.toNat = 0x2028 || c.toNat = 0x2029 ||
  c.toNat = 0x1680 || (0x2000 ≤ c.toNat && c.toNat ≤ 0x200a) ||
  c.toNat = 0x202f || c.toNat = 0x205f || c.toNat = 0x3000

def trimList (l : List Char) : List Char :=
  ((l.dropWhile isJsTrimWs).reverse.dropWhile isJsTrimWs).reverse

/-- Failure modes of the inline cleanup in `generateMindMapData`: the
explicit "Empty response" throw, and the `JSON.parse` exception (carrying
the string it choked on). -/
inductive MindMapErr where
  | emptyResponse : MindMapErr
  | jsParse (s : List Char) : MindMapErr
deriving DecidableEq

/-- src/services/geminiService.ts lines 97-103: strip fence markers, trim,
reject the empty result, parse the whole remainder. -/
def mindMapExtract (text : List Char) : Except MindMapErr Json :=
  if trimList (stripFences text) = [] then .error .emptyResponse
  else
    match parseJson (trimList (stripFences text)) with
    | some v => .ok v
    | none => .error (.jsParse (trimList (stripFences text)))

/-- Embedding of `UserProfile` from the shared type declarations
(src/unnamed/part_000). -/
structure UserProfile where
  name : List Char
  grade : List Char
  targetExam : List Char
  isOnboarded : Bool
deriving DecidableEq

/-- The profile-related top-level state of `App`: the React `userProfile`
state together with the `studyBuddyProfile` local-storage slot.  The slot is
modeled at the level of its parsed content; the source stores
`JSON.stringify` of the profile there and parses it back at startup. -/
structure AppState where
  profile : UserProfile
  storedProfile : Option UserProfile
deriving DecidableEq

/-- The profile update performed by `saveProfile` (src/App.tsx lines
96-100): set the onboarded flag and keep the remaining fields. -/
def saveProfile (p : UserProfile) : UserProfile := { p with isOnboarded := true }

/-- The operations of src/App.tsx that mutate the `userProfile` state: the
three onboarding field editors (lines 217, 227, 244), the onboarding save
(line 258, calling `saveProfile`), and the sidebar Edit Profile reset
(line 292). -/
inductive ProfileAction where
  | setName (v : List Char)
  | setGrade (v : List Char)
  | setTargetExam (v : List Char)
  | save
  | editProfileReset
deriving DecidableEq

/-- One profile-mutating step of `App`.  Only `save` touches local storage
(`localStorage.setItem('studyBuddyProfile', ...)`, line 99); the field
editors and the Edit Profile reset call `setUserProfile` alone. -/
def profileStep (s : AppState) : ProfileAction → AppState
  | .setName v => { s with profile := { s.profile with name := v } }
  | .setGrade v => { s with profile := { s.profile with grade := v } }
  | .setTargetExam v => { s with profile := { s.profile with targetExam := v } }
  | .save => { profile := saveProfile s.profile, storedProfile := some (saveProfile s.profile) }
  | .editProfileReset => { s with profile := { s.profile with isOnboarded := false } }

/-- The `disabled` condition of the onboarding save button (src/App.tsx
line 259): JavaScript falsiness of any of the three string fields. -/
def saveButtonDisabled (p : UserProfile) : Bool :=
  p.name = [] || p.grade = [] || p.targetExam = []

inductive Role where
  | user
  | model
deriving DecidableEq

/-- Embedding of `ChatMessage` from the shared type declarations; the optional `isError`
flag is `false` when absent (JavaScript falsiness of `undefined`). -/
structure ChatMessage where
  id : List Char
  role : Role
  text : List Char
  image : Option (List Char)
  isError : Bool
deriving DecidableEq

/-- The user message appended by `handleSendMessage` (src/App.tsx lines
154-159).  The selected file is modeled by its object URL, `none` when no
file is attached. -/
def mkUserMsg (chatInput : List Char) (imageUrl : Option (List Char)) (now : Nat) : ChatMessage :=
  { id := (toString now).toList, role := .user, text := chatInput,
    image := imageUrl, isError := false }

/-- The model reply appended on a resolved service call (lines 180-184). -/
def mkModelMsg (responseText : List Char) (now : Nat) : ChatMessage :=
  { id := (toString (now + 1)).toList, role := .model, text := responseText,
    image := none, isError := false }

/-- The error-flagged model message appended on a rejected service call
(lines 186-191), with the `err.message || "Something went wrong."`
fallback. -/
def mkErrorChatMsg (msg : List Char) (now : Nat) : ChatMessage :=
  { id := (toString (now + 1)).toList, role := .model,
    text := "Error: ".toList ++ (if msg = [] then "Something went wrong.".toList else msg),
    image := none, isError := true }

/-- Embedding of `handleSendMessage` (src/App.tsx lines 151-195) as a function of the
current history, the input, the selected file, the outcome of the awaited
service call, and the `Date.now()` reading.  The guard returns the history
unchanged when both input and file are absent; otherwise the user message
is appended, and the resolution or rejection of the service call appends
the model reply or the error-flagged message. -/
def handleSendMessage (history : List ChatMessage) (chatInput : List Char)
    (chatFile : Option (List Char)) (svc : Except (List Char) (List Char)) (now : Nat) :
    List ChatMessage :=
  if chatInput = [] ∧ chatFile = none then history
  else
    match svc with
    | .ok responseText => history ++ [mkUserMsg chatInput chatFile now] ++ [mkModelMsg responseText now]
    | .error msg => history ++ [mkUserMsg chatInput chatFile now] ++ [mkErrorChatMsg msg now]

/-- The welcome message installed by the effect of src/App.tsx lines 86-94
(text reproduced from the source). -/
def welcomeMsg (p : UserProfile) : ChatMessage :=
  { id := "init".toList, role := .model,
    text := "Hi ".toList ++ p.name ++
      "! I'm Professor Nova üë©‚Äçüè´. \n\nI see you're in **".toList ++ p.grade ++
      "** preparing for **".toList ++ p.targetExam ++
      "**. \n\nI'm here to help you ace it! Ask me anything, generate notes, or upload a problem.".toList,
    image := none, isError := false }

/-- The operations of src/App.tsx that change the `chatHistory` state:
sending a message (lines 151-195), the Clear Chat button (line 574), and
the welcome effect (lines 86-94), which fires only when the profile is
onboarded and the history is empty. -/
inductive ChatAction where
  | send (chatInput : List Char) (chatFile : Option (List Char))
      (svc : Except (List Char) (List Char)) (now : Nat)
  | clear
  | welcome (p : UserProfile)

def chatStep (history : List ChatMessage) : ChatAction → List ChatMessage
  | .send i f svc now => handleSendMessage history i f svc now
  | .clear => []
  | .welcome p => if p.isOnboarded ∧ history = [] then [welcomeMsg p] else history

theorem idxOf?_append_first (q t : List Char) (c : Char) (hq : c ∉ q) :
    idxOf? c (q ++ c :: t) = some q.length := by
  induction q with
  | nil => simp [idxOf?]
  | cons x xs ih =>
    have hx : ¬(x = c) := fun h => hq (by simp [h])
    have hxs : c ∉ xs := fun h => hq (List.mem_cons_of_mem _ h)
    simp [idxOf?, hx, ih hxs]

theorem idxOf?_eq_none_of_not_mem (c : Char) (l : List Char) (h : c ∉ l) :
    idxOf? c l = none := by
  induction l with
  | nil => rfl
  | cons x xs ih =>
    have hx : ¬(x = c) := fun hh => h (by simp [hh])
    have hxs : c ∉ xs := fun hh => h (List.mem_cons_of_mem _ hh)
    simp [idxOf?, hx, ih hxs]

theorem take_len_append (a b : List Char) : (a ++ b).take a.length = a := by
  induction a with
  | nil => simp
  | cons x xs ih => simp [ih]

theorem drop_len_append (a b : List Char) : (a ++ b).drop a.length = b := by
  induction a with
  | nil => simp
  | cons x xs ih => simp [ih]

theorem getLast?_decomp (l : List Char) (c : Char) (h : l.getLast? = some c) :
    ∃ t, l = t ++ [c] := by
  induction l with
  | nil => simp at h
  | cons x xs ih =>
    cases xs with
    | nil =>
      simp [List.getLast?] at h
      exact ⟨[], by simp [h]⟩
    | cons y ys =>
      rw [List.getLast?_cons_cons] at h
      obtain ⟨t, ht⟩ := ih h
      exact ⟨x :: t, by simp [ht]⟩

/-- Stripping fences from the empty string gives the empty string, so a non-empty
fence-stripped form forces a non-empty input. -/
theorem stripFences_nil : stripFences [] = [] := rfl

/-- Shape of a run of `cleanAndParseJSON` whose fence-stripped input splits
into prose with no `{` before, a block starting with `{` and ending with
`}`, and prose with no `}` after: the routine parses exactly that block. -/
theorem cleanAndParseJSON_decomp (text q j r : List Char)
    (hdec : stripFences text = q ++ j ++ r)
    (hq : '{' ∉ q) (hr : '}' ∉ r)
    (hj1 : j.head? = some '{') (hj2 : j.getLast? = some '}') :
    cleanAndParseJSON text =
      match parseJson j with
      | some v => .ok v
      | none => .error (.parseError j) := by
  obtain ⟨jt, rfl⟩ : ∃ jt, j = '{' :: jt := by
    cases j with
    | nil => simp at hj1
    | cons a t =>
      refine ⟨t, ?_⟩
      simp only [List.head?] at hj1
      rw [Option.some.injEq] at hj1
      rw [hj1]
  obtain ⟨ji, hji⟩ := getLast?_decomp _ _ hj2
  have hlen : 1 ≤ ('{' :: jt).length := by simp
  have htext : text ≠ [] := by
    intro h
    subst h
    rw [stripFences_nil] at hdec
    exact absurd hdec.symm (by simp)
  have F1 : idxOf? '{' (stripFences text) = some q.length := by
    rw [hdec, List.append_assoc, List.cons_append]
    exact idxOf?_append_first q (jt ++ r) '{' hq
  have F2 : lastIdxOf '}' (stripFences text) = some (q.length + ('{' :: jt).length - 1) := by
    have hrev : (stripFences text).reverse = r.reverse ++ '}' :: (ji.reverse ++ q.reverse) := by
      rw [hdec, hji]
      simp [List.reverse_append]
    have hidx : idxOf? '}' (stripFences text).reverse = some r.reverse.length := by
      rw [hrev]
      exact idxOf?_append_first _ _ _ (by simpa using hr)
    unfold lastIdxOf
    rw [hidx, Option.map_some']
    rw [Option.some.injEq]
    have hL : (stripFences text).length = q.length + ('{' :: jt).length + r.length := by
      rw [hdec]; simp; try omega
    rw [hL, List.length_reverse]
    omega
  have F3 : jsSubstring (stripFences text) q.length (q.length + ('{' :: jt).length - 1 + 1) =
      '{' :: jt := by
    have hb : q.length + ('{' :: jt).length - 1 + 1 = q.length + ('{' :: jt).length := by omega
    have hmin : min q.length (q.length + ('{' :: jt).length) = q.length := by omega
    have hmax : max q.length (q.length + ('{' :: jt).length) = q.length + ('{' :: jt).length := by
      omega
    have hsub : q.length + ('{' :: jt).length - q.length = ('{' :: jt).length := by omega
    rw [hb]
    unfold jsSubstring
    rw [hmin, hmax, hsub, hdec, List.append_assoc, drop_len_append, take_len_append]
  unfold cleanAndParseJSON
  rw [if_neg htext, F1, F2]
  dsimp only
  rw [F3]

/-- JavaScript `trim` removes a whitespace run from each end: any list is
its trimmed core surrounded by two all-whitespace runs. -/
theorem trimList_decomp (l : List Char) :
    ∃ w1 w2, l = w1 ++ trimList l ++ w2 ∧
      (∀ c ∈ w1, isJsTrimWs c = true) ∧ (∀ c ∈ w2, isJsTrimWs c = true) := by
  refine ⟨l.takeWhile isJsTrimWs,
    ((l.dropWhile isJsTrimWs).reverse.takeWhile isJsTrimWs).reverse, ?_, ?_, ?_⟩
  · have h2 : (l.dropWhile isJsTrimWs).reverse =
        (l.dropWhile isJsTrimWs).reverse.takeWhile isJsTrimWs ++
          (l.dropWhile isJsTrimWs).reverse.dropWhile isJsTrimWs :=
      (List.takeWhile_append_dropWhile _ _).symm
    have h3 : l.dropWhile isJsTrimWs =
        ((l.dropWhile isJsTrimWs).reverse.dropWhile isJsTrimWs).reverse ++
          ((l.dropWhile isJsTrimWs).reverse.takeWhile isJsTrimWs).reverse := by
      have h4 := congrArg List.reverse h2
      rwa [List.reverse_reverse, List.reverse_append] at h4
    conv_lhs => rw [← List.takeWhile_append_dropWhile (p := isJsTrimWs) (l := l), h3]
    rw [trimList, List.append_assoc]
  · intro c hc
    exact List.mem_takeWhile_imp hc
  · intro c hc
    rw [List.mem_reverse] at hc
    exact List.mem_takeWhile_imp hc

/-- C1 (amended): if the fence-stripped input splits as `q ++ j ++ r` where
the leading prose `q` contains no `{`, the trailing prose `r` contains no
`}`, and `j` is a valid JSON object text (starts with `{`, ends with `}`,
and parses), then `cleanAndParseJSON` succeeds and returns exactly the
direct parse of `j`. -/
theorem cleanAndParseJSON_extracts_embedded (text q j r : List Char) (v : Json)
    (hdec : stripFences text = q ++ j ++ r)
    (hq : '{' ∉ q) (hr : '}' ∉ r)
    (hj1 : j.head? = some '{') (hj2 : j.getLast? = some '}')
    (hparse : parseJson j = some v) :
    cleanAndParseJSON text = .ok v := by
  rw [cleanAndParseJSON_decomp text q j r hdec hq hr hj1 hj2, hparse]

theorem cleanAndParseJSON_extracts_embedded_witness :
    cleanAndParseJSON ("Sure! ```json\n\x7b\"a\":\"b\"\x7d\n```".toList) =
      .ok (Json.obj [("a".toList, Json.str ("b".toList))]) :=
  cleanAndParseJSON_extracts_embedded _ ("Sure! \n".toList) ("\x7b\"a\":\"b\"\x7d".toList)
    ("\n".toList) _ (by rfl) (by decide) (by decide) (by rfl) (by rfl) (by rfl)

/-- C1 counterexample: the claim as stated fails for arbitrary prose.  The
input below contains the valid JSON object `{"a":"b"}` surrounded by prose
and fence markers, but the leading prose contains a stray `{`, so the slice
from the first `{` to the last `}` is not the embedded object and the
routine fails even though the embedded object parses directly. -/
theorem cleanAndParseJSON_prose_brace_cx :
    ("Sure! \x7b ```json\n\x7b\"a\":\"b\"\x7d\n```".toList =
      "Sure! \x7b ```json\n".toList ++ "\x7b\"a\":\"b\"\x7d".toList ++ "\n```".toList) ∧
    parseJson ("\x7b\"a\":\"b\"\x7d".toList) =
      some (Json.obj [("a".toList, Json.str ("b".toList))]) ∧
    cleanAndParseJSON ("Sure! \x7b ```json\n\x7b\"a\":\"b\"\x7d\n```".toList) =
      .error (.parseError ("\x7b \n\x7b\"a\":\"b\"\x7d".toList)) :=
  ⟨rfl, rfl, rfl⟩

/-- C2: the end-to-end scenario of the spec: the fenced Root/Leaf response
parses to the object `{name: "Root", children: [{name: "Leaf"}]}`. -/
theorem cleanAndParseJSON_scenario_fenced :
    cleanAndParseJSON
        ("Sure! ```json\n\x7b\"name\":\"Root\",\"children\":[\x7b\"name\":\"Leaf\"\x7d]\x7d\n```".toList) =
      .ok (Json.obj [("name".toList, Json.str ("Root".toList)),
        ("children".toList, Json.arr [Json.obj [("name".toList, Json.str ("Leaf".toList))]])]) :=
  rfl

/-- C3: the empty input yields the empty-input error, and that error arises
for no other input — the emptiness check precedes fence stripping and brace
location, so even inputs whose stripped form is empty or brace-free report
a different error. -/
theorem cleanAndParseJSON_empty_input :
    cleanAndParseJSON [] = .error .emptyInput ∧
    ∀ s : List Char, s ≠ [] → cleanAndParseJSON s ≠ .error .emptyInput := by
  refine ⟨rfl, ?_⟩
  intro s hs
  unfold cleanAndParseJSON
  rw [if_neg hs]
  rcases h1 : idxOf? '{' (stripFences s) with _ | fb <;>
    rcases h2 : lastIdxOf '}' (stripFences s) with _ | lb <;> dsimp only
  · simp
  · simp
  · simp
  · split <;> simp

theorem cleanAndParseJSON_empty_input_witness :
    cleanAndParseJSON ("x".toList) ≠ .error .emptyInput :=
  cleanAndParseJSON_empty_input.2 ("x".toList) (by decide)

/-- C4: any non-empty input whose fence-stripped form lacks a `{` or lacks
a `}` (either one suffices) fails with the structure-not-found error. -/
theorem cleanAndParseJSON_no_structure (s : List Char) (hs : s ≠ [])
    (h : '{' ∉ stripFences s ∨ '}' ∉ stripFences s) :
    cleanAndParseJSON s = .error .noStructure := by
  unfold cleanAndParseJSON
  rw [if_neg hs]
  rcases h with h | h
  · rw [idxOf?_eq_none_of_not_mem '{' _ h]
  · have h2 : lastIdxOf '}' (stripFences s) = none := by
      unfold lastIdxOf
      rw [idxOf?_eq_none_of_not_mem _ _ (by simpa using h)]
      rfl
    rw [h2]
    rcases idxOf? '{' (stripFences s) with _ | fb <;> rfl

theorem cleanAndParseJSON_no_structure_witness :
    cleanAndParseJSON ("no braces here, just prose".toList) = .error .noStructure ∧
    cleanAndParseJSON ("opening only: \x7b".toList) = .error .noStructure :=
  ⟨cleanAndParseJSON_no_structure _ (by decide) (Or.inl (by decide)),
   cleanAndParseJSON_no_structure _ (by decide) (Or.inr (by decide))⟩

/-- C5: when the stripped input has a first `{` and a last `}` but the
slice between them does not parse, the routine fails with its own
parse-error value carrying that slice; and every input yields one of the
three error values or a parsed result — the `JSON.parse` exception never
escapes as anything else. -/
theorem cleanAndParseJSON_parse_failure :
    (∀ (s : List Char) (fb lb : Nat),
      idxOf? '{' (stripFences s) = some fb →
      lastIdxOf '}' (stripFences s) = some lb →
      parseJson (jsSubstring (stripFences s) fb (lb + 1)) = none →
      cleanAndParseJSON s = .error (.parseError (jsSubstring (stripFences s) fb (lb + 1)))) ∧
    (∀ s : List Char,
      cleanAndParseJSON s = .error .emptyInput ∨
      cleanAndParseJSON s = .error .noStructure ∨
      (∃ sl, cleanAndParseJSON s = .error (.parseError sl)) ∨
      (∃ v, cleanAndParseJSON s = .ok v)) := by
  constructor
  · intro s fb lb h1 h2 h3
    have hs : s ≠ [] := by
      intro h
      subst h
      rw [stripFences_nil] at h1
      simp [idxOf?] at h1
    unfold cleanAndParseJSON
    rw [if_neg hs, h1, h2]
    dsimp only
    rw [h3]
  · intro s
    unfold cleanAndParseJSON
    by_cases hs : s = []
    · rw [if_pos hs]
      exact Or.inl rfl
    · rw [if_neg hs]
      split
      · split
        · exact Or.inr (Or.inr (Or.inr ⟨_, rfl⟩))
        · exact Or.inr (Or.inr (Or.inl ⟨_, rfl⟩))
      · exact Or.inr (Or.inl rfl)

theorem cleanAndParseJSON_parse_failure_witness :
    cleanAndParseJSON ("\x7bnot json\x7d".toList) =
      .error (.parseError ("\x7bnot json\x7d".toList)) :=
  cleanAndParseJSON_parse_failure.1 ("\x7bnot json\x7d".toList) 0 9 (by rfl) (by rfl) (by rfl)

/-- C10: on every input whose fence-stripped, trimmed form is non-empty,
starts with `{`, and ends with `}`, the inline cleanup-and-parse of
`generateMindMapData` and `cleanAndParseJSON` succeed on exactly the same
inputs and return equal parsed values. -/
theorem mindMap_cleanAndParse_agree (text : List Char)
    (h0 : trimList (stripFences text) ≠ [])
    (h1 : (trimList (stripFences text)).head? = some '{')
    (h2 : (trimList (stripFences text)).getLast? = some '}') :
    ∀ v : Json, mindMapExtract text = .ok v ↔ cleanAndParseJSON text = .ok v := by
  obtain ⟨w1, w2, hdec, hw1, hw2⟩ := trimList_decomp (stripFences text)
  have hq : '{' ∉ w1 := fun hm => absurd (hw1 _ hm) (by decide)
  have hr : '}' ∉ w2 := fun hm => absurd (hw2 _ hm) (by decide)
  have hmain := cleanAndParseJSON_decomp text w1 (trimList (stripFences text)) w2 hdec hq hr h1 h2
  intro v
  unfold mindMapExtract
  rw [if_neg h0, hmain]
  rcases parseJson (trimList (stripFences text)) with _ | w <;> simp

theorem mindMap_cleanAndParse_agree_witness :
    cleanAndParseJSON ("```json\n \x7b\"name\":\"X\"\x7d \n```".toList) =
      .ok (Json.obj [("name".toList, Json.str ("X".toList))]) :=
  (mindMap_cleanAndParse_agree ("```json\n \x7b\"name\":\"X\"\x7d \n```".toList)
    (by decide) (by rfl) (by rfl) _).mp (by rfl)

/-- C6 counterexample: starting from a state where the stored profile
matches the in-memory one (reached by the onboarding save), the Edit
Profile reset mutates the in-memory profile without writing local storage,
so afterwards the stored profile differs from the in-memory profile. -/
theorem profile_reset_not_persisted_cx :
    (profileStep (profileStep ⟨⟨"A".toList, "Class 9".toList, "NEET".toList, false⟩, none⟩
        .save) .editProfileReset).storedProfile ≠
      some (profileStep (profileStep ⟨⟨"A".toList, "Class 9".toList, "NEET".toList, false⟩, none⟩
        .save) .editProfileReset).profile := by
  decide

/-- C6 (amended): only the onboarding save writes the profile to local
storage — after a save the stored profile equals the in-memory profile,
while every other profile mutation (the onboarding field edits and the
Edit Profile reset) leaves the stored profile unchanged. -/
theorem profile_storage_write_sites (s : AppState) (a : ProfileAction) :
    (a = .save → (profileStep s a).storedProfile = some (profileStep s a).profile) ∧
    (a ≠ .save → (profileStep s a).storedProfile = s.storedProfile) := by
  constructor
  · rintro rfl
    rfl
  · intro ha
    cases a with
    | setName v => rfl
    | setGrade v => rfl
    | setTargetExam v => rfl
    | save => exact absurd rfl ha
    | editProfileReset => rfl

theorem profile_storage_write_sites_witness :
    (profileStep ⟨⟨"A".toList, "B".toList, "C".toList, false⟩, none⟩ .save).storedProfile =
      some (profileStep ⟨⟨"A".toList, "B".toList, "C".toList, false⟩, none⟩ .save).profile :=
  (profile_storage_write_sites ⟨⟨"A".toList, "B".toList, "C".toList, false⟩, none⟩ .save).1 rfl

/-- C7: the Edit Profile reset only clears the onboarded flag — name,
grade, target exam, and the stored profile are untouched — and no profile
operation deletes the profile from local storage. -/
theorem editProfile_only_resets_flag (s : AppState) :
    (profileStep s .editProfileReset).profile.name = s.profile.name ∧
    (profileStep s .editProfileReset).profile.grade = s.profile.grade ∧
    (profileStep s .editProfileReset).profile.targetExam = s.profile.targetExam ∧
    (profileStep s .editProfileReset).profile.isOnboarded = false ∧
    (profileStep s .editProfileReset).storedProfile = s.storedProfile ∧
    (∀ a : ProfileAction, s.storedProfile ≠ none → (profileStep s a).storedProfile ≠ none) := by
  refine ⟨rfl, rfl, rfl, rfl, rfl, ?_⟩
  intro a hsome
  cases a with
  | setName v => exact hsome
  | setGrade v => exact hsome
  | setTargetExam v => exact hsome
  | save => simp [profileStep]
  | editProfileReset => exact hsome

theorem editProfile_only_resets_flag_witness :
    (profileStep ⟨⟨"A".toList, "B".toList, "C".toList, true⟩,
        some ⟨"A".toList, "B".toList, "C".toList, true⟩⟩ .editProfileReset).storedProfile ≠
      none :=
  (editProfile_only_resets_flag ⟨⟨"A".toList, "B".toList, "C".toList, true⟩,
      some ⟨"A".toList, "B".toList, "C".toList, true⟩⟩).2.2.2.2.2 .editProfileReset (by decide)

/-- C8: a rejected chat service call appends exactly one error-flagged
model message after the already-appended user message, leaving every
earlier message unchanged; and apart from the wholesale clear, every chat
operation only appends to the history. -/
theorem chat_error_append_only :
    (∀ (h : List ChatMessage) (input : List Char) (file : Option (List Char))
        (e : List Char) (now : Nat),
      ¬(input = [] ∧ file = none) →
      handleSendMessage h input file (.error e) now =
        h ++ [mkUserMsg input file now, mkErrorChatMsg e now] ∧
      (mkErrorChatMsg e now).role = .model ∧ (mkErrorChatMsg e now).isError = true) ∧
    (∀ (h : List ChatMessage) (a : ChatAction), a ≠ .clear →
      ∃ t, chatStep h a = h ++ t) ∧
    (∀ h : List ChatMessage, chatStep h .clear = []) := by
  refine ⟨?_, ?_, fun h => rfl⟩
  · intro h input file e now hg
    unfold handleSendMessage
    rw [if_neg hg]
    exact ⟨by simp, rfl, rfl⟩
  · intro h a ha
    cases a with
    | send i f svc now =>
      show ∃ t, handleSendMessage h i f svc now = h ++ t
      unfold handleSendMessage
      by_cases hg : i = [] ∧ f = none
      · rw [if_pos hg]
        exact ⟨[], by simp⟩
      · rw [if_neg hg]
        cases svc with
        | ok t => exact ⟨[mkUserMsg i f now, mkModelMsg t now], by simp⟩
        | error e => exact ⟨[mkUserMsg i f now, mkErrorChatMsg e now], by simp⟩
    | clear => exact absurd rfl ha
    | welcome p =>
      show ∃ t, (if p.isOnboarded ∧ h = [] then [welcomeMsg p] else h) = h ++ t
      by_cases hw : p.isOnboarded ∧ h = []
      · rw [if_pos hw]
        exact ⟨[welcomeMsg p], by simp [hw.2]⟩
      · rw [if_neg hw]
        exact ⟨[], by simp⟩

theorem chat_error_append_only_witness :
    handleSendMessage [] ("hi".toList) none (.error ("boom".toList)) 5 =
      [mkUserMsg ("hi".toList) none 5, mkErrorChatMsg ("boom".toList) 5] :=
  (chat_error_append_only.1 [] ("hi".toList) none ("boom".toList) 5 (by decide)).1

/-- C9: whenever the onboarding save button is enabled (its `disabled`
condition is false), the profile's three fields are non-empty, so the
profile that `saveProfile` marks as onboarded has a non-empty name, grade,
and target exam. -/
theorem onboarding_save_requires_fields (p : UserProfile)
    (h : saveButtonDisabled p = false) :
    (saveProfile p).isOnboarded = true ∧ (saveProfile p).name ≠ [] ∧
    (saveProfile p).grade ≠ [] ∧ (saveProfile p).targetExam ≠ [] := by
  simp only [saveButtonDisabled, Bool.or_eq_false_iff, decide_eq_false_iff_not] at h
  exact ⟨rfl, h.1.1, h.1.2, h.2⟩

theorem onboarding_save_requires_fields_witness :
    (saveProfile ⟨"Priya".toList, "Class 10".toList, "JEE Mains/Adv".toList, false⟩).isOnboarded
        = true ∧
    (saveProfile ⟨"Priya".toList, "Class 10".toList, "JEE Mains/Adv".toList, false⟩).name ≠ [] ∧
    (saveProfile ⟨"Priya".toList, "Class 10".toList, "JEE Mains/Adv".toList, false⟩).grade ≠ [] ∧
    (saveProfile ⟨"Priya".toList, "Class 10".toList,
        "JEE Mains/Adv".toList, false⟩).targetExam ≠ [] :=
  onboarding_save_requires_fields ⟨"Priya".toList, "Class 10".toList,
    "JEE Mains/Adv".toList, false⟩ (by decide)
